import Mathlib

/-!
Verification of the hamstr tile renderer (src/tracer/renderer.rs, halton.rs,
color.rs, surface.rs) against its natural-language specification.

Shallow embedding conventions:
* f64 values are embedded as rationals where the code only compares scaled
  byte values (canonicalization) or performs exact dyadic arithmetic
  (halton), and as reals where transcendental functions appear (cos and powf
  in the shadow test and the sRGB curve).
* u8 and usize values are embedded as naturals; block ids index the palette,
  which is embedded as a total function (an out-of-range index panics in the
  source and the spec classifies that as a fatal programmer error).
* The Renderer with its worker pool is embedded as a state machine on the
  dispatcher thread: the channel of completed bakes is a state component
  filled by explicit deliver steps, drained exactly where the source calls
  try_recv.  Reference-counted texture handles are embedded as numeric ids
  allocated from a counter, so that identity statements are expressible:
  cloning an Rc yields the same id, Rc::new yields a fresh id.

The file is organized as definitions first, theorems second.
-/

/-! ## Surface (src/tracer/surface.rs)

Only the height data of a Surface is relevant to the claims: the height map
image hm (byte values, indexed row major as hm y x like the source
hm[pix.y()][pix.x()]), its dimensions, and the cached minimum and maximum
bytes that Surface::new folds over the pixels.  The diffuse map is not
read by any claim and is omitted. -/

structure Surface where
  hm : ℤ → ℤ → ℕ
  w : ℤ
  h : ℤ
  hmMin : ℕ
  hmMax : ℕ

/-- Surface::HM_MAX = 0.5 (rational copy, used for the height scale). -/
def hmMaxConstQ : ℚ := 0.5

/-- Surface::HM_SCALE = HM_MAX / 255.0 (rational copy). -/
def hmScaleQ : ℚ := hmMaxConstQ / 255

/-- Surface::hm_max(): (hm_max as f64) * HM_SCALE.  Embedded in ℚ because the
scaling is exactly a positive rational multiple of the byte value and the code
only compares such values against each other. -/
def Surface.hm_maxQ (s : Surface) : ℚ := (s.hmMax : ℚ) * hmScaleQ

/-- Surface::hm_min(): (hm_min as f64) * HM_SCALE. -/
def Surface.hm_minQ (s : Surface) : ℚ := (s.hmMin : ℚ) * hmScaleQ

/-- The palette maps block ids to Surfaces (renderer.rs line 24: type Palette =
Vec of Surface).  Embedded as a total function: indexing out of the Vec range
panics in the source and the spec classifies that as a fatal programmer
error. -/
def Palette : Type := ℕ → Surface

/-! ## TileKey (renderer.rs lines 150-188)

blocks is a 3x3 row-major array; field bRC below is blocks[R][C]. -/

structure TileKey where
  b00 : ℕ
  b01 : ℕ
  b02 : ℕ
  b10 : ℕ
  b11 : ℕ
  b12 : ℕ
  b20 : ℕ
  b21 : ℕ
  b22 : ℕ
  goody : ℕ
deriving DecidableEq

/-- TileKey::with_center. -/
def TileKey.with_center (block : ℕ) : TileKey :=
  ⟨0, 0, 0, 0, block, 0, 0, 0, 0, 0⟩

/-- TileKey::new. -/
def TileKey.new : TileKey := TileKey.with_center 0

/-- TileKey::center: blocks[1][1]. -/
def TileKey.center (k : TileKey) : ℕ := k.b11

/-- TileKey::center_and_goody: all neighbors empty, same center and goody. -/
def TileKey.center_and_goody (k : TileKey) : TileKey :=
  ⟨0, 0, 0, 0, k.center, 0, 0, 0, 0, k.goody⟩

/-- TileKey::is_center_only: the source masks blocks[1][1] to 0 and compares
the blocks array with the all-zero array of TileKey::new, i.e. it tests that
all eight neighbor cells are 0.  The goody field is not inspected. -/
def TileKey.is_center_only (k : TileKey) : Bool :=
  k.b00 == 0 && k.b01 == 0 && k.b02 == 0 && k.b10 == 0 &&
  k.b12 == 0 && k.b20 == 0 && k.b21 == 0 && k.b22 == 0

/-! ## Canonicalization (renderer.rs lines 88-115) -/

/-- Renderer::is_below: palette[surfa].hm_max() <= palette[surfb].hm_min(). -/
def is_below (pal : Palette) (surfa surfb : ℕ) : Bool :=
  decide ((pal surfa).hm_maxQ ≤ (pal surfb).hm_minQ)

/-- Renderer::canonicalize1. -/
def canonicalize1 (pal : Palette) (block center : ℕ) : ℕ :=
  if is_below pal block center then 0 else block

/-- Renderer::canonicalize: rewrites the 8 neighbor cells through
canonicalize1 against the center; the center cell and goody are untouched. -/
def canonicalize (pal : Palette) (k : TileKey) : TileKey :=
  let c := k.center
  { k with
      b00 := canonicalize1 pal k.b00 c
      b01 := canonicalize1 pal k.b01 c
      b02 := canonicalize1 pal k.b02 c
      b10 := canonicalize1 pal k.b10 c
      b12 := canonicalize1 pal k.b12 c
      b20 := canonicalize1 pal k.b20 c
      b21 := canonicalize1 pal k.b21 c
      b22 := canonicalize1 pal k.b22 c }

/-! ## Halton sequence (src/tracer/halton.rs)

The source loop divides f by the base and floors i / base each iteration.
All intermediate f64 values for base 2 are dyadic rationals, represented
exactly, so ℚ is an exact embedding there.  The loop variable i strictly
decreases each iteration whenever the base is at least 2 (the documented
precondition), so a fuel argument equal to the initial i bounds the
iteration count; haltonAux returns r when the fuel runs out, which for
base ≥ 2 never happens before i reaches 0. -/

def haltonAux (b : ℕ) : ℕ → ℕ → ℚ → ℚ → ℚ
  | 0, _, _, r => r
  | fuel + 1, i, f, r =>
    if i = 0 then r
    else haltonAux b fuel (i / b) (f / b) (r + f / b * ((i % b : ℕ) : ℚ))

/-- halton(b, i): the source starts from i + 1 and runs the while loop with
f = 1.0, r = 0.0. -/
def halton (b i : ℕ) : ℚ :=
  haltonAux b (i + 1) (i + 1) 1 0

/-! ## Renderer cache and dispatch (renderer.rs lines 11-148, 190-280)

State owned by the dispatcher thread.  Texture handles (Rc of Texture) are
numeric ids: emptyId is the pre-built placeholder Renderer.empty, created
before any bake, and create allocates fresh ids from the counter next,
mirroring Rc::new.  The images flowing back from the workers are opaque
payloads.  The from_work channel is the chan list; worker completions are
modeled as explicit deliver steps appending to it, and Bakery::try_recv
drains it into the outbox exactly as the source does.  The bakery field
subHist records every key ever passed to Bakery::send, in order, so that
single-flight statements can count underlying bake jobs.  The diagnostic
counter num_baking of the source only feeds print_stats and is omitted. -/

/-- Payload of a DoneItem: the baked image.  Its pixels are never inspected
by the dispatch logic, so it is opaque. -/
abbrev Img : Type := ℕ

structure RState where
  cache : TileKey → Option ℕ
  baking : TileKey → Bool
  outbox : TileKey → Option Img
  chan : List (TileKey × Img)
  subHist : List TileKey
  next : ℕ

/-- Handle of the pre-built empty placeholder texture (Renderer.empty). -/
def emptyId : ℕ := 0

/-- Renderer::new: empty cache, empty baking set, fresh bakery. -/
def initState : RState :=
  ⟨fun _ => none, fun _ => false, fun _ => none, [], [], 1⟩

/-- Pointwise update of a finite-map-as-function (HashMap insert/remove). -/
def fupdate {α : Type} (m : TileKey → α) (k : TileKey) (v : α) : TileKey → α :=
  fun q => if q = k then v else m q

/-- A worker thread finishing a bake pushes (key, image) onto the completion
channel (renderer.rs line 226). -/
def deliver (s : RState) (it : TileKey × Img) : RState :=
  { s with chan := s.chan ++ [it] }

/-- Bakery::try_recv: move all completed items from the channel into the
outbox, then remove and return the entry for the requested key, if any. -/
def bakery_try_recv (s : RState) (k : TileKey) : Option Img × RState :=
  let ob := s.chan.foldl (fun m it => fupdate m it.1 (some it.2)) s.outbox
  (ob k, { s with outbox := fupdate ob k none, chan := [] })

/-- Renderer::create: remove the key from the baking set, insert a fresh
reference-counted texture into the cache, and return (a clone of) it. -/
def create (s : RState) (k : TileKey) (_img : Img) : ℕ × RState :=
  (s.next,
    { s with
        baking := fupdate s.baking k false
        cache := fupdate s.cache k (some s.next)
        next := s.next + 1 })

/-- Renderer::try_recv: poll the bakery; on completion run create. -/
def renderer_try_recv (s : RState) (k : TileKey) : Option ℕ × RState :=
  match bakery_try_recv s k with
  | (none, s1) => (none, s1)
  | (some img, s1) =>
    let c := create s1 k img
    (some c.1, c.2)

/-- Renderer::start_baking: mark the key as baking and send it to the worker
pool (Bakery::send appends to the submission history). -/
def start_baking (s : RState) (k : TileKey) : RState :=
  { s with
      baking := fupdate s.baking k true
      subHist := s.subHist ++ [k] }

/-- Renderer::render_tile, fuel-indexed.  The source recursion is
self.render_tile(tilekey.center_and_goody()); its depth is at most 1 because
the fallback key has all-empty neighbors (theorem render_tile_total), so any
fuel of at least 2 computes the function.  Returns none only on fuel
exhaustion. -/
def render_tileAux (pal : Palette) : ℕ → RState → TileKey → Option (ℕ × RState)
  | 0, _, _ => none
  | fuel + 1, s, key =>
    let k := canonicalize pal key
    match s.cache k with
    | some tex => some (tex, s)
    | none =>
      let pr := if s.baking k then renderer_try_recv s k else (none, s)
      match pr with
      | (some tex, s1) => some (tex, s1)
      | (none, s1) =>
        let s2 := if s1.baking k then s1 else start_baking s1 k
        if k.is_center_only then some (emptyId, s2)
        else render_tileAux pal fuel s2 k.center_and_goody

/-- Renderer::render_tile at fuel 2; the default is never reached. -/
def render_tile (pal : Palette) (s : RState) (key : TileKey) : ℕ × RState :=
  (render_tileAux pal 2 s key).getD (emptyId, s)

/-- The state reached by a render_tile call that found no cached texture and
no completed bake: the poll phase (which drains the channel only when the key
is marked baking) followed by the submit phase (lines 60-70 of the source). -/
def miss_phase (s : RState) (k : TileKey) : RState :=
  let s1 := if s.baking k then (renderer_try_recv s k).2 else s
  if s1.baking k then s1 else start_baking s1 k

/-- One interaction with the dispatcher: either the consumer calls
render_tile with some key, or a worker delivers a completed bake. -/
inductive RStep : Type where
  | call : TileKey → RStep
  | deliver : TileKey × Img → RStep

def runStep (pal : Palette) (s : RState) : RStep → RState
  | RStep.call k => (render_tile pal s k).2
  | RStep.deliver it => deliver s it

/-- A sequence of interactions. -/
def run (pal : Palette) (s : RState) (steps : List RStep) : RState :=
  steps.foldl (runStep pal) s

/-- Invariant of C10: every key present in the cache or in the baking set is
a fixed point of canonicalize. -/
def CanonInv (pal : Palette) (s : RState) : Prop :=
  (∀ q, (s.cache q).isSome → canonicalize pal q = q) ∧
  (∀ q, s.baking q = true → canonicalize pal q = q)

/-- Invariant of C1 for a key q that has been submitted and whose bake has
not yet been collected: q is marked baking, no completed result for q sits
in the outbox or the channel, and the number of submissions of q recorded
in the bakery history is c. -/
def FlightInv (q : TileKey) (c : ℕ) (s : RState) : Prop :=
  s.baking q = true ∧ s.outbox q = none ∧ (∀ it ∈ s.chan, it.1 ≠ q) ∧
  s.subHist.count q = c

/-! Concrete inputs for witnesses and counterexamples. -/

/-- Surface::default: empty images, hm_min = hm_max = 0. -/
def defaultSurface : Surface := ⟨fun _ _ => 0, 0, 0, 0, 0⟩

/-- A palette in which every surface is flat at height zero. -/
def pal0 : Palette := fun _ => defaultSurface

/-- A key whose canonical form has all-empty neighbors and a nonzero goody. -/
def keyGoody : TileKey := ⟨0, 0, 0, 0, 0, 0, 0, 0, 0, 1⟩

/-- A center-only key with center block 5. -/
def keyC5 : TileKey := TileKey.with_center 5

/-- A key with a nonzero neighbor. -/
def keyN : TileKey := ⟨3, 0, 0, 0, 5, 0, 0, 0, 0, 0⟩

/-- A palette where block 3 is a raised flat surface, so that keyN does not
canonicalize its neighbor away. -/
def pal3 : Palette :=
  fun i => if i = 3 then ⟨fun _ _ => 255, 64, 64, 255, 255⟩ else defaultSurface

/-! ## Color conversion (src/tracer/color.rs lines 89-116)

f32 arithmetic is embedded over ℝ; powf is Real.rpow. -/

/-- color.rs clip: clamp a color value into the unit interval, testing the
low end first. -/
noncomputable def clip (v : ℝ) : ℝ :=
  if v < 0 then 0 else if 1 < v then 1 else v

/-- linear_to_srgb (color.rs lines 95-105): clip, piecewise linear below
0.0031308, otherwise the power curve with the literal constants of the
source, clamped to at most 1.  Note the source subtracts 0.05 after the
power term. -/
noncomputable def linear_to_srgb (c : ℝ) : ℝ :=
  let c1 := clip c
  if c1 ≤ 0.0031308 then 12.92 * c1
  else
    let c2 := 1.055 * c1 ^ ((1 : ℝ) / 2.4) - 0.05
    if 1 < c2 then 1 else c2

/-- Modelled from the spec: the standard sRGB transfer function that claim C5
says linear_to_srgb matches exactly — clamp into the unit interval, 12.92
times the value below 0.0031308, otherwise 1.055 times the value to the power
1 / 2.4 minus 0.055, clamped to at most 1. -/
noncomputable def srgb_standard (c : ℝ) : ℝ :=
  let c1 := max 0 (min 1 c)
  if c1 ≤ 0.0031308 then 12.92 * c1
  else min (1.055 * c1 ^ ((1 : ℝ) / 2.4) - 0.055) 1

/-! ## Shadow test (renderer.rs lines 385-414 and the height sampling it
uses, renderer.rs lines 488-510 and surface.rs lines 77-93)

All f64 quantities are reals.  The source asserts maxh <= Surface::HM_MAX
and debug-asserts the ray start region and normalization; assertion failure
panics rather than producing a value and is not part of the embedded value
semantics. -/

/-- GRID (game/gamestate.rs line 5). -/
def GRID : ℕ := 64

/-- Surface::HM_MAX as a real. -/
noncomputable def hmMaxConstR : ℝ := 0.5

/-- Surface::HM_SCALE as a real. -/
noncomputable def hmScaleR : ℝ := hmMaxConstR / 255

/-- Surface::hm_max() over the reals. -/
noncomputable def Surface.hm_maxR (s : Surface) : ℝ := (s.hmMax : ℝ) * hmScaleR

/-- A 3-vector of f64 (common/vector.rs). -/
structure V3 where
  x : ℝ
  y : ℝ
  z : ℝ

/-- Ray::at(t) = start.fmadd(t, dir) = start + dir * t, componentwise. -/
noncomputable def rayAt (start dir : V3) (t : ℝ) : V3 :=
  ⟨start.x + t * dir.x, start.y + t * dir.y, start.z + t * dir.z⟩

/-- Rust float-to-int as-cast: truncation toward zero (the saturating and
NaN cases never arise on the values reached here). -/
noncomputable def ftrunc (x : ℝ) : ℤ := if 0 ≤ x then ⌊x⌋ else ⌈x⌉

/-- surface.rs clamp(x, max): clamp an index into [0, max). -/
def clampIdx (x mx : ℤ) : ℤ :=
  if x ≥ mx then mx - 1 else if x < 0 then 0 else x

/-- Surface::height_at(pix): hm[pix.y][pix.x] scaled to physical height. -/
noncomputable def Surface.height_atR (s : Surface) (x y : ℤ) : ℝ :=
  (s.hm y x : ℝ) * hmScaleR

/-- Surface::height_at_uv: nearest-neighbor sample, coordinates clamped. -/
noncomputable def Surface.height_at_uvR (s : Surface) (uv : ℝ × ℝ) : ℝ :=
  let x := clampIdx (ftrunc (uv.1 * (s.w : ℝ))) s.w
  let y := clampIdx (ftrunc (uv.2 * (s.h : ℝ))) s.h
  s.height_atR x y

/-- blocks[r][c] of a TileKey; indexes outside the 3x3 range panic in the
source and return 0 here (never reached on the rays considered). -/
def blockAt (k : TileKey) (r c : ℕ) : ℕ :=
  match r, c with
  | 0, 0 => k.b00
  | 0, 1 => k.b01
  | 0, 2 => k.b02
  | 1, 0 => k.b10
  | 1, 1 => k.b11
  | 1, 2 => k.b12
  | 2, 0 => k.b20
  | 2, 1 => k.b21
  | 2, 2 => k.b22
  | _, _ => 0

/-- SharedData::pos_to_tile via modf: integer tile coordinates (usize casts
saturate below at 0) and fractional remainder. -/
noncomputable def pos_to_tile (p : ℝ × ℝ) : (ℕ × ℕ) × (ℝ × ℝ) :=
  ((⌊p.1⌋.toNat, ⌊p.2⌋.toNat), (p.1 - ⌊p.1⌋, p.2 - ⌊p.2⌋))

/-- SharedData::height_at_pos: sample the block under the position; inside
the center tile a nonzero goody contributes the max of its height and the
background height. -/
noncomputable def height_at_pos (pal : Palette) (chunk : TileKey) (pos : ℝ × ℝ) : ℝ :=
  let tu := pos_to_tile pos
  let tile := tu.1
  let uv := tu.2
  let blk := blockAt chunk tile.2 tile.1
  if chunk.goody ≠ 0 ∧ tile = (1, 1) then
    max ((pal chunk.goody).height_at_uvR uv) ((pal blk).height_at_uvR uv)
  else
    (pal blk).height_at_uvR uv

/-- The blocks array flattened in row-major iteration order. -/
def blocksList (k : TileKey) : List ℕ :=
  [k.b00, k.b01, k.b02, k.b10, k.b11, k.b12, k.b20, k.b21, k.b22]

/-- SharedData::max_height: fold of hm_max over all blocks, then the goody. -/
noncomputable def max_height (pal : Palette) (k : TileKey) : ℝ :=
  let mx := (blocksList k).foldl (fun b x => max b (pal x).hm_maxR) 0
  if k.goody ≠ 0 then max mx (pal k.goody).hm_maxR else mx

/-- The ray-marching stride: 0.7 / (dir.z.cos() * GRID).  The source takes
the cosine of the z component itself. -/
noncomputable def strideOf (dir : V3) : ℝ :=
  0.7 / (Real.cos dir.z * (GRID : ℝ))

/-- The marching loop of SharedData::intersects: n remaining iterations,
current parameter t; each iteration advances t by the stride first (the
source mutates t and binds p = r.at(t) once; the embedding inlines both),
then tests escape above maxh, then tests occlusion by the height field. -/
noncomputable def intersectsLoop (pal : Palette) (chunk : TileKey)
    (start dir : V3) (stride maxh : ℝ) : ℕ → ℝ → Bool
  | 0, _ => false
  | n + 1, t =>
    if maxh < (rayAt start dir (t + stride)).z then false
    else if (rayAt start dir (t + stride)).z <
        height_at_pos pal chunk
          ((rayAt start dir (t + stride)).x, (rayAt start dir (t + stride)).y) then true
    else intersectsLoop pal chunk start dir stride maxh n (t + stride)

/-- SharedData::intersects: non-upward rays are occluded immediately;
otherwise march GRID - 2 steps starting from t = stride (the loop adds the
stride before the first test). -/
noncomputable def intersects (pal : Palette) (chunk : TileKey)
    (start dir : V3) : Bool :=
  if dir.z ≤ 0 then true
  else
    intersectsLoop pal chunk start dir (strideOf dir) (max_height pal chunk)
      (GRID - 2) (strideOf dir)

/-- The point tested at (0-based) iteration k of the march: the loop has
t = (k + 2) * stride there. -/
noncomputable def marchPoint (start dir : V3) (k : ℕ) : V3 :=
  rayAt start dir (((k : ℝ) + 2) * strideOf dir)

/-- Iteration k sees the ray above the maximal neighborhood height. -/
def escapesAt (pal : Palette) (chunk : TileKey) (start dir : V3) (k : ℕ) : Prop :=
  max_height pal chunk < (marchPoint start dir k).z

/-- Iteration k sees the height field strictly above the ray point (the
occlusion test of the source). -/
def hitsStrictAt (pal : Palette) (chunk : TileKey) (start dir : V3) (k : ℕ) : Prop :=
  (marchPoint start dir k).z <
    height_at_pos pal chunk ((marchPoint start dir k).x, (marchPoint start dir k).y)

/-- Iteration k sees the height field meet or exceed the ray point (the
occlusion test as worded by claim C4). -/
def hitsGeAt (pal : Palette) (chunk : TileKey) (start dir : V3) (k : ℕ) : Prop :=
  (marchPoint start dir k).z ≤
    height_at_pos pal chunk ((marchPoint start dir k).x, (marchPoint start dir k).y)

/-- Modelled from the spec: claim C4 as stated — occluded when the ray
points non-upward, or when some iteration within the budget finds the height
field meeting or exceeding the ray point, no earlier or simultaneous escape
above the maximum height having fired, and no earlier such occlusion. -/
def claimOccluded (pal : Palette) (chunk : TileKey) (start dir : V3) : Prop :=
  dir.z ≤ 0 ∨
    ∃ k, k < GRID - 2 ∧ hitsGeAt pal chunk start dir k ∧
      (∀ j, j ≤ k → ¬ escapesAt pal chunk start dir j) ∧
      (∀ j, j < k → ¬ hitsGeAt pal chunk start dir j)

/-- A 3x3 chunk entirely made of block 3 (the raised flat surface of pal3),
no goody. -/
def chunkAll3 : TileKey := ⟨3, 3, 3, 3, 3, 3, 3, 3, 3, 0⟩

/-- The straight-up unit direction. -/
def dirUp : V3 := ⟨0, 0, 1⟩

/-- A start height from which the first marched point touches the surface
height 0.5 of pal3 exactly. -/
noncomputable def zTouch : ℝ := 1 / 2 - 2 * strideOf dirUp

/-- Ray start for the C4 counterexample: center of the middle tile. -/
noncomputable def startTouch : V3 := ⟨3 / 2, 3 / 2, zTouch⟩

/-- A Bool form of the side condition of C1: a step avoids completing the
key q when it is a consumer call (any key) or a delivery for another key. -/
def stepAvoids (q : TileKey) : RStep → Bool
  | RStep.call _ => true
  | RStep.deliver it => !(it.1 == q)

/-- A state whose cache already holds texture handle 7 for keyC5. -/
def sCached : RState :=
  { initState with cache := fupdate initState.cache keyC5 (some 7) }

/-! # Theorems -/

/-! ## Canonicalization: C2 and C6 -/

theorem canonicalize1_self (pal : Palette) (b c : ℕ) :
    canonicalize1 pal (canonicalize1 pal b c) c = canonicalize1 pal b c := by
  unfold canonicalize1
  by_cases h : is_below pal b c = true
  · simp only [h, if_true]
    by_cases h0 : is_below pal 0 c = true <;> simp [h0]
  · simp [h]

theorem canonicalize1_zero (pal : Palette) (c : ℕ) :
    canonicalize1 pal 0 c = 0 := by
  unfold canonicalize1
  split <;> rfl

/-- C2: canonicalize zeroes each of the 8 neighbor cells exactly when that
neighbor has hm_max at most the center surface hm_min, leaves other neighbor
cells at their original value, and leaves the center cell and the goody
unchanged. -/
theorem canonicalize_zeroing (pal : Palette) (k : TileKey) :
    ((canonicalize pal k).b00 =
      if (pal k.b00).hm_maxQ ≤ (pal k.center).hm_minQ then 0 else k.b00) ∧
    ((canonicalize pal k).b01 =
      if (pal k.b01).hm_maxQ ≤ (pal k.center).hm_minQ then 0 else k.b01) ∧
    ((canonicalize pal k).b02 =
      if (pal k.b02).hm_maxQ ≤ (pal k.center).hm_minQ then 0 else k.b02) ∧
    ((canonicalize pal k).b10 =
      if (pal k.b10).hm_maxQ ≤ (pal k.center).hm_minQ then 0 else k.b10) ∧
    ((canonicalize pal k).b12 =
      if (pal k.b12).hm_maxQ ≤ (pal k.center).hm_minQ then 0 else k.b12) ∧
    ((canonicalize pal k).b20 =
      if (pal k.b20).hm_maxQ ≤ (pal k.center).hm_minQ then 0 else k.b20) ∧
    ((canonicalize pal k).b21 =
      if (pal k.b21).hm_maxQ ≤ (pal k.center).hm_minQ then 0 else k.b21) ∧
    ((canonicalize pal k).b22 =
      if (pal k.b22).hm_maxQ ≤ (pal k.center).hm_minQ then 0 else k.b22) ∧
    (canonicalize pal k).b11 = k.b11 ∧
    (canonicalize pal k).goody = k.goody := by
  simp [canonicalize, canonicalize1, is_below]

/-- Helper form of idempotence, shared by the state-machine lemmas. -/
theorem canonicalize_canonicalize (pal : Palette) (k : TileKey) :
    canonicalize pal (canonicalize pal k) = canonicalize pal k := by
  cases k with
  | mk b00 b01 b02 b10 b11 b12 b20 b21 b22 goody =>
    simp [canonicalize, TileKey.center, canonicalize1_self]

/-- C6: canonicalization is idempotent for every palette and key. -/
theorem canonicalize_idempotent (pal : Palette) (k : TileKey) :
    canonicalize pal (canonicalize pal k) = canonicalize pal k := by
  cases k with
  | mk b00 b01 b02 b10 b11 b12 b20 b21 b22 goody =>
    simp [canonicalize, TileKey.center, canonicalize1_self]

/-! ## Halton: C8 -/

/-- C8: the first ten elements of the base-2 Halton sequence are exactly
0.5, 0.25, 0.75, 0.125, 0.625, 0.375, 0.875, 0.0625, 0.5625, 0.3125. -/
theorem halton_base2_first_ten :
    halton 2 0 = 0.5 ∧ halton 2 1 = 0.25 ∧ halton 2 2 = 0.75 ∧
    halton 2 3 = 0.125 ∧ halton 2 4 = 0.625 ∧ halton 2 5 = 0.375 ∧
    halton 2 6 = 0.875 ∧ halton 2 7 = 0.0625 ∧ halton 2 8 = 0.5625 ∧
    halton 2 9 = 0.3125 := by
  norm_num [halton, haltonAux]

/-! ## Renderer structural lemmas -/

theorem center_and_goody_canonical (pal : Palette) (k : TileKey) :
    canonicalize pal k.center_and_goody = k.center_and_goody := by
  simp [canonicalize, TileKey.center_and_goody, TileKey.center, canonicalize1_zero]

theorem center_and_goody_center_only (k : TileKey) :
    k.center_and_goody.is_center_only = true := by
  simp [TileKey.center_and_goody, TileKey.is_center_only]

theorem center_and_goody_ne_of_not_center_only (k : TileKey)
    (h : k.is_center_only = false) : k.center_and_goody ≠ k := by
  intro he
  rw [← he, center_and_goody_center_only] at h
  exact Bool.true_eq_false.mp h

theorem is_below_pal0 (a b : ℕ) : is_below pal0 a b = true := by
  simp [is_below, pal0, defaultSurface, Surface.hm_maxQ, Surface.hm_minQ]

theorem canonicalize_pal0 (k : TileKey) :
    canonicalize pal0 k = k.center_and_goody := by
  cases k with
  | mk b00 b01 b02 b10 b11 b12 b20 b21 b22 goody =>
    simp [canonicalize, canonicalize1, is_below_pal0, TileKey.center_and_goody,
      TileKey.center]

theorem render_tileAux_succ (pal : Palette) (fuel : ℕ) (s : RState) (key : TileKey) :
    render_tileAux pal (fuel + 1) s key =
      match s.cache (canonicalize pal key) with
      | some tex => some (tex, s)
      | none =>
        match (if s.baking (canonicalize pal key) then
            renderer_try_recv s (canonicalize pal key) else (none, s)) with
        | (some tex, s1) => some (tex, s1)
        | (none, s1) =>
          let s2 := if s1.baking (canonicalize pal key) then s1
            else start_baking s1 (canonicalize pal key)
          if (canonicalize pal key).is_center_only then some (emptyId, s2)
          else render_tileAux pal fuel s2 (canonicalize pal key).center_and_goody :=
  rfl

theorem render_tileAux_mono (pal : Palette) :
    ∀ fuel s key r, render_tileAux pal fuel s key = some r →
      render_tileAux pal (fuel + 1) s key = some r := by
  intro fuel
  induction fuel with
  | zero => intro s key r h; simp [render_tileAux] at h
  | succ n ih =>
    intro s key r h
    rw [render_tileAux_succ] at h ⊢
    cases hc : s.cache (canonicalize pal key) with
    | some tex => rw [hc] at h; exact h
    | none =>
      rw [hc] at h
      rcases hr : (if s.baking (canonicalize pal key) then
          renderer_try_recv s (canonicalize pal key) else (none, s)) with ⟨o, s1⟩
      rw [hr] at h
      cases o with
      | some tex => exact h
      | none =>
        by_cases hco : (canonicalize pal key).is_center_only = true
        · simp only [hco, if_true] at h ⊢
          exact h
        · simp only [Bool.not_eq_true] at hco
          simp only [hco, Bool.false_eq_true, if_false] at h ⊢
          exact ih _ _ _ h

theorem render_tileAux_center_only (pal : Palette) (s : RState) (key : TileKey)
    (h : (canonicalize pal key).is_center_only = true) :
    ∃ r, render_tileAux pal 1 s key = some r := by
  rw [show (1 : ℕ) = 0 + 1 from rfl, render_tileAux_succ]
  cases hc : s.cache (canonicalize pal key) with
  | some tex => exact ⟨(tex, s), rfl⟩
  | none =>
    rcases hr : (if s.baking (canonicalize pal key) then
        renderer_try_recv s (canonicalize pal key) else (none, s)) with ⟨o, s1⟩
    cases o with
    | some tex => exact ⟨(tex, s1), rfl⟩
    | none =>
      exact ⟨(emptyId, if s1.baking (canonicalize pal key) then s1
        else start_baking s1 (canonicalize pal key)), by simp [h]⟩

theorem render_tileAux_two_some (pal : Palette) (s : RState) (key : TileKey) :
    ∃ r, render_tileAux pal 2 s key = some r := by
  rw [show (2 : ℕ) = 1 + 1 from rfl, render_tileAux_succ]
  cases hc : s.cache (canonicalize pal key) with
  | some tex => exact ⟨(tex, s), rfl⟩
  | none =>
    rcases hr : (if s.baking (canonicalize pal key) then
        renderer_try_recv s (canonicalize pal key) else (none, s)) with ⟨o, s1⟩
    cases o with
    | some tex => exact ⟨(tex, s1), rfl⟩
    | none =>
      by_cases hco : (canonicalize pal key).is_center_only = true
      · exact ⟨(emptyId, if s1.baking (canonicalize pal key) then s1
          else start_baking s1 (canonicalize pal key)), by simp [hco]⟩
      · simp only [Bool.not_eq_true] at hco
        simp only [hco, Bool.false_eq_true, if_false]
        apply render_tileAux_center_only
        rw [center_and_goody_canonical]
        exact center_and_goody_center_only _

theorem render_tileAux_ge_two (pal : Palette) (fuel : ℕ) (s : RState) (key : TileKey) :
    render_tileAux pal (2 + fuel) s key = render_tileAux pal 2 s key := by
  induction fuel with
  | zero => rfl
  | succ n ih =>
    obtain ⟨r, hr⟩ := render_tileAux_two_some pal s key
    have h1 : render_tileAux pal (2 + n) s key = some r := ih.trans hr
    have h2 := render_tileAux_mono pal (2 + n) s key r h1
    rw [show 2 + (n + 1) = 2 + n + 1 from rfl, h2, hr]

/-- C9: render_tile is total and its degrade recursion has depth at most
one: fuel 2 already computes a result for every state and key, and adding
any extra fuel never changes that result, because the fallback key built
by center_and_goody has all-empty neighbors, so the recursive invocation
never recurses again. -/
theorem render_tile_total (pal : Palette) (fuel : ℕ) (s : RState) (key : TileKey) :
    render_tileAux pal (2 + fuel) s key = some (render_tile pal s key) := by
  obtain ⟨r, hr⟩ := render_tileAux_two_some pal s key
  rw [render_tileAux_ge_two, hr, render_tile, hr]
  rfl

theorem renderer_try_recv_cases (s : RState) (k : TileKey) :
    renderer_try_recv s k =
      match (s.chan.foldl (fun m it => fupdate m it.1 (some it.2)) s.outbox) k with
      | none =>
        (none,
          { s with
              outbox := fupdate
                (s.chan.foldl (fun m it => fupdate m it.1 (some it.2)) s.outbox) k none
              chan := [] })
      | some _ =>
        (some s.next,
          { s with
              baking := fupdate s.baking k false
              cache := fupdate s.cache k (some s.next)
              next := s.next + 1
              outbox := fupdate
                (s.chan.foldl (fun m it => fupdate m it.1 (some it.2)) s.outbox) k none
              chan := [] }) := by
  cases h : (s.chan.foldl (fun m it => fupdate m it.1 (some it.2)) s.outbox) k <;>
    simp [renderer_try_recv, bakery_try_recv, create, h]

/-- Generic preservation of a state predicate through render_tileAux: it
suffices that the predicate survives the poll (drain and possible create,
only at a canonical key with no cache entry) and the submit (only at a
canonical key not currently baking). -/
theorem render_tileAux_preserves (pal : Palette) (P : RState → Prop)
    (H1 : ∀ s k, P s → s.cache k = none → canonicalize pal k = k →
      P (renderer_try_recv s k).2)
    (H2 : ∀ s k, P s → s.baking k = false → canonicalize pal k = k →
      P (start_baking s k)) :
    ∀ fuel s key r, P s → render_tileAux pal fuel s key = some r → P r.2 := by
  intro fuel
  induction fuel with
  | zero => intro s key r hP h; simp [render_tileAux] at h
  | succ n ih =>
    intro s key r hP h
    rw [render_tileAux_succ] at h
    cases hc : s.cache (canonicalize pal key) with
    | some tex =>
      rw [hc] at h
      cases h
      exact hP
    | none =>
      rw [hc] at h
      by_cases hb : s.baking (canonicalize pal key) = true
      · rw [if_pos hb] at h
        rcases hrv : renderer_try_recv s (canonicalize pal key) with ⟨o, s1⟩
        have hP1 : P s1 := by
          have hh := H1 s (canonicalize pal key) hP hc (canonicalize_canonicalize pal key)
          rw [hrv] at hh
          exact hh
        rw [hrv] at h
        cases o with
        | some tex =>
          cases h
          exact hP1
        | none =>
          by_cases hb1 : s1.baking (canonicalize pal key) = true
          · simp only [hb1, if_true] at h
            by_cases hco : (canonicalize pal key).is_center_only = true
            · simp only [hco, if_true] at h
              cases h
              exact hP1
            · simp only [Bool.not_eq_true] at hco
              simp only [hco, Bool.false_eq_true, if_false] at h
              exact ih _ _ _ hP1 h
          · simp only [Bool.not_eq_true] at hb1
            simp only [hb1, Bool.false_eq_true, if_false] at h
            have hP2 : P (start_baking s1 (canonicalize pal key)) :=
              H2 s1 (canonicalize pal key) hP1 hb1 (canonicalize_canonicalize pal key)
            by_cases hco : (canonicalize pal key).is_center_only = true
            · simp only [hco, if_true] at h
              cases h
              exact hP2
            · simp only [Bool.not_eq_true] at hco
              simp only [hco, Bool.false_eq_true, if_false] at h
              exact ih _ _ _ hP2 h
      · simp only [Bool.not_eq_true] at hb
        simp only [hb, Bool.false_eq_true, if_false] at h
        have hP2 : P (start_baking s (canonicalize pal key)) :=
          H2 s (canonicalize pal key) hP hb (canonicalize_canonicalize pal key)
        by_cases hco : (canonicalize pal key).is_center_only = true
        · simp only [hco, if_true] at h
          cases h
          exact hP2
        · simp only [Bool.not_eq_true] at hco
          simp only [hco, Bool.false_eq_true, if_false] at h
          exact ih _ _ _ hP2 h

theorem render_tile_preserves (pal : Palette) (P : RState → Prop)
    (H1 : ∀ s k, P s → s.cache k = none → canonicalize pal k = k →
      P (renderer_try_recv s k).2)
    (H2 : ∀ s k, P s → s.baking k = false → canonicalize pal k = k →
      P (start_baking s k)) :
    ∀ s key, P s → P ((render_tile pal s key).2) := by
  intro s key hP
  obtain ⟨r, hr⟩ := render_tileAux_two_some pal s key
  have hh := render_tileAux_preserves pal P H1 H2 2 s key r hP hr
  rw [render_tile, hr]
  exact hh

theorem run_preserves (pal : Palette) (P : RState → Prop) (Q : RStep → Prop)
    (Hc : ∀ s k, P s → Q (RStep.call k) → P ((render_tile pal s k).2))
    (Hd : ∀ s it, P s → Q (RStep.deliver it) → P (deliver s it)) :
    ∀ steps s, P s → (∀ st ∈ steps, Q st) → P (run pal s steps) := by
  intro steps
  induction steps with
  | nil => intro s hP _; exact hP
  | cons st rest ih =>
    intro s hP hQ
    have hst := hQ st (List.mem_cons_self st rest)
    have hrest : ∀ st2 ∈ rest, Q st2 := fun st2 h2 => hQ st2 (List.mem_cons_of_mem _ h2)
    cases st with
    | call k => exact ih _ (Hc s k hP hst) hrest
    | deliver it => exact ih _ (Hd s it hP hst) hrest

theorem render_tile_cache_hit (pal : Palette) (s : RState) (key : TileKey) (tex : ℕ)
    (h : s.cache (canonicalize pal key) = some tex) :
    render_tile pal s key = (tex, s) := by
  rw [render_tile, show (2 : ℕ) = 1 + 1 from rfl, render_tileAux_succ, h]
  rfl

/-! ## C10: only canonical keys are stored -/

/-- C10: every key in the cache or the baking set is a fixed point of
canonicalize; the invariant holds for the freshly constructed Renderer and
is preserved by every render_tile call. -/
theorem only_canonical_keys_stored (pal : Palette) :
    CanonInv pal initState ∧
    ∀ s key, CanonInv pal s → CanonInv pal ((render_tile pal s key).2) := by
  constructor
  · exact ⟨fun q h => by simp [initState] at h, fun q h => by simp [initState] at h⟩
  · intro s key hP
    refine render_tile_preserves pal (CanonInv pal) ?_ ?_ s key hP
    · intro s2 k hP2 _ hcanon
      obtain ⟨h1, h2⟩ := hP2
      rw [renderer_try_recv_cases]
      cases ho : (s2.chan.foldl (fun m it => fupdate m it.1 (some it.2)) s2.outbox) k with
      | none => exact ⟨h1, h2⟩
      | some img =>
        constructor
        · intro q hq
          by_cases hqk : q = k
          · subst hqk; exact hcanon
          · exact h1 q (by simpa [fupdate, hqk] using hq)
        · intro q hq
          by_cases hqk : q = k
          · subst hqk; exact hcanon
          · exact h2 q (by simpa [fupdate, hqk] using hq)
    · intro s2 k hP2 _ hcanon
      obtain ⟨h1, h2⟩ := hP2
      refine ⟨fun q hq => h1 q hq, fun q hq => ?_⟩
      by_cases hqk : q = k
      · subst hqk; exact hcanon
      · exact h2 q (by simpa [start_baking, fupdate, hqk] using hq)

/-- Witness for C10: the invariant, discharged at the initial state, carries
through a concrete render_tile call. -/
theorem only_canonical_keys_stored_witness :
    CanonInv pal0 ((render_tile pal0 initState keyC5).2) :=
  (only_canonical_keys_stored pal0).2 initState keyC5
    ⟨fun q h => by simp [initState] at h, fun q h => by simp [initState] at h⟩

/-! ## C7: cache stability -/

/-- C7: once a texture for a canonical key q sits in the cache, any sequence
of consumer calls and worker deliveries leaves that entry untouched, and a
render_tile call whose key canonicalizes to q returns exactly the stored
handle and leaves the whole state unchanged. -/
theorem cache_stability (pal : Palette) (s : RState) (q : TileKey) (tex : ℕ)
    (steps : List RStep) (key : TileKey)
    (hcq : s.cache q = some tex) (hk : canonicalize pal key = q) :
    (run pal s steps).cache q = some tex ∧
    render_tile pal (run pal s steps) key = (tex, run pal s steps) := by
  have hrun : (run pal s steps).cache q = some tex := by
    refine run_preserves pal (fun s2 => s2.cache q = some tex) (fun _ => True)
      ?_ (fun s2 it hP _ => hP) steps s hcq (fun st _ => trivial)
    intro s2 k hP _
    refine render_tile_preserves pal (fun s3 => s3.cache q = some tex) ?_
      (fun s3 k2 hP2 _ _ => hP2) s2 k hP
    intro s3 k2 hP2 hc2 _
    rw [renderer_try_recv_cases]
    cases ho : (s3.chan.foldl (fun m it => fupdate m it.1 (some it.2)) s3.outbox) k2 with
    | none => exact hP2
    | some img =>
      have hne : q ≠ k2 := by
        intro he
        rw [he, hc2] at hP2
        cases hP2
      simpa [fupdate, hne] using hP2
  exact ⟨hrun, render_tile_cache_hit pal _ key tex (by rw [hk]; exact hrun)⟩

/-- Witness for C7 at a concrete cached state, step sequence and key. -/
theorem cache_stability_witness :
    (run pal0 sCached [RStep.call TileKey.new, RStep.deliver (keyN, 3)]).cache keyC5 =
      some 7 ∧
    render_tile pal0 (run pal0 sCached [RStep.call TileKey.new, RStep.deliver (keyN, 3)])
        keyC5 =
      (7, run pal0 sCached [RStep.call TileKey.new, RStep.deliver (keyN, 3)]) :=
  cache_stability pal0 sCached keyC5 7 [RStep.call TileKey.new, RStep.deliver (keyN, 3)]
    keyC5 rfl (canonicalize_pal0 keyC5)

/-! ## C1: single-flight -/

theorem drain_none (q : TileKey) :
    ∀ (l : List (TileKey × Img)) (m : TileKey → Option Img),
      m q = none → (∀ it ∈ l, it.1 ≠ q) →
      (l.foldl (fun m2 it => fupdate m2 it.1 (some it.2)) m) q = none := by
  intro l
  induction l with
  | nil => intro m hm _; exact hm
  | cons it rest ih =>
    intro m hm hl
    have h1 : q ≠ it.1 := Ne.symm (hl it (List.mem_cons_self it rest))
    refine ih _ ?_ (fun it2 h2 => hl it2 (List.mem_cons_of_mem _ h2))
    simp [fupdate, h1, hm]

theorem flight_H1 (q : TileKey) (c : ℕ) :
    ∀ (s : RState) (k : TileKey), FlightInv q c s → s.cache k = none →
      FlightInv q c (renderer_try_recv s k).2 := by
  intro s k hP _
  obtain ⟨hb, ho, hch, hcount⟩ := hP
  have hobq : (s.chan.foldl (fun m it => fupdate m it.1 (some it.2)) s.outbox) q = none :=
    drain_none q s.chan s.outbox ho hch
  rw [renderer_try_recv_cases]
  cases hok : (s.chan.foldl (fun m it => fupdate m it.1 (some it.2)) s.outbox) k with
  | none =>
    refine ⟨hb, ?_, by simp, hcount⟩
    by_cases hqk : q = k
    · simp [fupdate, hqk]
    · simp [fupdate, hqk, hobq]
  | some img =>
    have hqk : q ≠ k := by
      intro he
      rw [← he, hobq] at hok
      cases hok
    refine ⟨by simpa [fupdate, hqk] using hb, ?_, by simp, hcount⟩
    simp [fupdate, hqk, hobq]

theorem flight_H2 (q : TileKey) (c : ℕ) :
    ∀ (s : RState) (k : TileKey), FlightInv q c s → s.baking k = false →
      FlightInv q c (start_baking s k) := by
  intro s k hP hbk
  obtain ⟨hb, ho, hch, hcount⟩ := hP
  have hqk : q ≠ k := by
    intro he
    rw [← he, hb] at hbk
    cases hbk
  refine ⟨by simp [start_baking, fupdate, hqk, hb], ho, hch, ?_⟩
  simp [start_baking, List.count_append, hcount, hqk]

theorem flight_render_tile (pal : Palette) (q : TileKey) (c : ℕ) :
    ∀ (s : RState) (key : TileKey), FlightInv q c s →
      FlightInv q c ((render_tile pal s key).2) :=
  render_tile_preserves pal (FlightInv q c)
    (fun s k hP hc _ => flight_H1 q c s k hP hc)
    (fun s k hP hb _ => flight_H2 q c s k hP hb)

/-- The first render_tile call for a canonical key that is not cached, not
baking, and has no completed result anywhere, submits the key exactly once
and marks it baking. -/
theorem first_call_flight (pal : Palette) (s : RState) (key : TileKey)
    (hc : s.cache (canonicalize pal key) = none)
    (hb : s.baking (canonicalize pal key) = false)
    (ho : s.outbox (canonicalize pal key) = none)
    (hch : ∀ it ∈ s.chan, it.1 ≠ canonicalize pal key) :
    FlightInv (canonicalize pal key) (s.subHist.count (canonicalize pal key) + 1)
      ((render_tile pal s key).2) := by
  have hstart : FlightInv (canonicalize pal key)
      (s.subHist.count (canonicalize pal key) + 1)
      (start_baking s (canonicalize pal key)) := by
    refine ⟨by simp [start_baking, fupdate], ho, hch, ?_⟩
    simp [start_baking, List.count_append]
  rw [render_tile, show (2 : ℕ) = 1 + 1 from rfl, render_tileAux_succ, hc]
  simp only [hb, Bool.false_eq_true, if_false]
  by_cases hco : (canonicalize pal key).is_center_only = true
  · simp only [hco, if_true, Option.getD_some]
    exact hstart
  · simp only [Bool.not_eq_true] at hco
    simp only [hco, Bool.false_eq_true, if_false]
    obtain ⟨r, hr⟩ := render_tileAux_center_only pal
      (start_baking s (canonicalize pal key)) ((canonicalize pal key).center_and_goody)
      (by rw [center_and_goody_canonical]; exact center_and_goody_center_only _)
    rw [hr, Option.getD_some]
    exact render_tileAux_preserves pal
      (FlightInv (canonicalize pal key) (s.subHist.count (canonicalize pal key) + 1))
      (fun s2 k hP hc2 _ => flight_H1 _ _ s2 k hP hc2)
      (fun s2 k hP hb2 _ => flight_H2 _ _ s2 k hP hb2)
      1 _ _ r hstart hr

/-- C1: a key whose canonical form q is neither cached, nor baking, nor
completed anywhere, is submitted to the worker pool exactly once by the
first render_tile call, and any further interaction — render_tile calls
with any keys (in particular keys with the same canonical form, which only
poll) and deliveries for other keys — leaves exactly one submission of q in
the bakery history, with q still marked in-flight. -/
theorem single_flight (pal : Palette) (s : RState) (key : TileKey) (q : TileKey)
    (steps : List RStep)
    (hq : canonicalize pal key = q)
    (hcache : s.cache q = none) (hbak : s.baking q = false)
    (hout : s.outbox q = none) (hchan : ∀ it ∈ s.chan, it.1 ≠ q)
    (hhist : q ∉ s.subHist)
    (hsteps : ∀ st ∈ steps, stepAvoids q st = true) :
    (run pal (render_tile pal s key).2 steps).subHist.count q = 1 ∧
    (run pal (render_tile pal s key).2 steps).baking q = true := by
  subst hq
  have h0 : s.subHist.count (canonicalize pal key) = 0 :=
    List.count_eq_zero.mpr hhist
  have h1 := first_call_flight pal s key hcache hbak hout hchan
  rw [h0] at h1
  have h2 := run_preserves pal (FlightInv (canonicalize pal key) 1)
    (fun st => stepAvoids (canonicalize pal key) st = true)
    (fun s2 k hP _ => flight_render_tile pal _ _ s2 k hP)
    (fun s2 it hP hQ => by
      obtain ⟨hb2, ho2, hch2, hcount2⟩ := hP
      refine ⟨hb2, ho2, ?_, hcount2⟩
      intro it2 h2
      rcases List.mem_append.mp h2 with hmem | hmem
      · exact hch2 it2 hmem
      · have : it2 = it := by simpa using hmem
        subst this
        simpa [stepAvoids] using hQ)
    steps _ h1 hsteps
  exact ⟨h2.2.2.2, h2.1⟩

/-- Witness for C1: a fresh renderer, a first request for keyC5, then a
repeat request, an unrelated delivery, and another repeat request. -/
theorem single_flight_witness :
    (run pal0 (render_tile pal0 initState keyC5).2
      [RStep.call keyC5, RStep.deliver (keyN, 3), RStep.call keyC5]).subHist.count
        keyC5 = 1 ∧
    (run pal0 (render_tile pal0 initState keyC5).2
      [RStep.call keyC5, RStep.deliver (keyN, 3), RStep.call keyC5]).baking keyC5 =
      true :=
  single_flight pal0 initState keyC5 keyC5
    [RStep.call keyC5, RStep.deliver (keyN, 3), RStep.call keyC5]
    (canonicalize_pal0 keyC5) rfl rfl rfl (by simp [initState]) (by simp [initState])
    (by decide)

/-! ## C3: degrade path -/

/-- A render_tile step whose canonical key is neither cached nor available
as a completed bake reaches the degrade branch: empty placeholder when the
key is center-only, otherwise the recursive call on the center-and-goody
key, both from the polled-and-submitted state miss_phase. -/
theorem render_tileAux_miss (pal : Palette) (fuel : ℕ) (s : RState) (key : TileKey)
    (hc : s.cache (canonicalize pal key) = none)
    (hn : (if s.baking (canonicalize pal key) then
        (bakery_try_recv s (canonicalize pal key)).1 else none) = none) :
    render_tileAux pal (fuel + 1) s key =
      if (canonicalize pal key).is_center_only then
        some (emptyId, miss_phase s (canonicalize pal key))
      else
        render_tileAux pal fuel (miss_phase s (canonicalize pal key))
          (canonicalize pal key).center_and_goody := by
  rw [render_tileAux_succ, hc]
  by_cases hb : s.baking (canonicalize pal key) = true
  · have hob : (s.chan.foldl (fun m it => fupdate m it.1 (some it.2)) s.outbox)
        (canonicalize pal key) = none := by
      simpa [hb, bakery_try_recv] using hn
    have htr : renderer_try_recv s (canonicalize pal key) =
        (none, (bakery_try_recv s (canonicalize pal key)).2) := by
      rw [renderer_try_recv_cases, hob]
      rfl
    have hb2 : ((bakery_try_recv s (canonicalize pal key)).2).baking
        (canonicalize pal key) = true := hb
    have hmiss : miss_phase s (canonicalize pal key) =
        (bakery_try_recv s (canonicalize pal key)).2 := by
      rw [miss_phase, if_pos hb, htr, if_pos hb2]
    simp only [hb, if_true, htr, hb2, hmiss]
  · simp only [Bool.not_eq_true] at hb
    have hmiss : miss_phase s (canonicalize pal key) =
        start_baking s (canonicalize pal key) := by
      rw [miss_phase, if_neg (by simp [hb]), if_neg (by simp [hb])]
    simp only [hb, Bool.false_eq_true, if_false, hmiss]

/-- C3 (amended): when the canonical key is neither cached nor available as
a completed bake, render_tile returns the pre-built empty placeholder
exactly when the canonical key has all-empty neighbors — the center-only
test does not consult the overlay — and otherwise returns the result of
recursively requesting the key made of the center block and the overlay
with all neighbors empty. -/
theorem degrade_path (pal : Palette) (s : RState) (key : TileKey)
    (hc : s.cache (canonicalize pal key) = none)
    (hn : (if s.baking (canonicalize pal key) then
        (bakery_try_recv s (canonicalize pal key)).1 else none) = none) :
    render_tile pal s key =
      if (canonicalize pal key).is_center_only then
        (emptyId, miss_phase s (canonicalize pal key))
      else
        render_tile pal (miss_phase s (canonicalize pal key))
          ((canonicalize pal key).center_and_goody) := by
  rw [render_tile, show (2 : ℕ) = 1 + 1 from rfl, render_tileAux_miss pal 1 s key hc hn]
  by_cases hco : (canonicalize pal key).is_center_only = true
  · rw [if_pos hco, if_pos hco, Option.getD_some]
  · have hcg : (canonicalize pal ((canonicalize pal key).center_and_goody)).is_center_only
        = true := by
      rw [center_and_goody_canonical]
      exact center_and_goody_center_only _
    obtain ⟨r, hr⟩ := render_tileAux_center_only pal
      (miss_phase s (canonicalize pal key)) ((canonicalize pal key).center_and_goody) hcg
    rw [if_neg hco, if_neg hco, hr, Option.getD_some, render_tile,
      show (2 : ℕ) = 1 + 1 from rfl, render_tileAux_mono pal 1 _ _ r hr, Option.getD_some]

/-- Witness for C3 (amended) at a concrete palette, state and key. -/
theorem degrade_path_witness :
    render_tile pal0 initState keyC5 =
      if (canonicalize pal0 keyC5).is_center_only then
        (emptyId, miss_phase initState (canonicalize pal0 keyC5))
      else
        render_tile pal0 (miss_phase initState (canonicalize pal0 keyC5))
          ((canonicalize pal0 keyC5).center_and_goody) :=
  degrade_path pal0 initState keyC5 rfl rfl

/-- Counterexample to C3 as stated: keyGoody has all-empty neighbors and a
nonzero overlay, is canonical, is neither cached nor baked nor deliverable
in the fresh state, yet render_tile returns the empty placeholder — the
claim required the placeholder only for keys with no overlay. -/
theorem degrade_goody_counterexample :
    canonicalize pal0 keyGoody = keyGoody ∧
    initState.cache keyGoody = none ∧
    initState.baking keyGoody = false ∧
    initState.outbox keyGoody = none ∧
    initState.chan = [] ∧
    (render_tile pal0 initState keyGoody).1 = emptyId ∧
    keyGoody.goody ≠ 0 := by
  have hk : canonicalize pal0 keyGoody = keyGoody := canonicalize_pal0 keyGoody
  refine ⟨hk, rfl, rfl, rfl, rfl, ?_, by decide⟩
  rw [render_tile, show (2 : ℕ) = 1 + 1 from rfl, render_tileAux_succ, hk]
  simp [initState, keyGoody, TileKey.is_center_only]

/-! ## C5: sRGB transfer function -/

theorem rpow_half_le (hgt : (0.9 : ℝ) < ((1 : ℝ) / 2) ^ ((1 : ℝ) / 2.4)) : False := by
  have h1 : ((0.9 : ℝ)) ^ (2.4 : ℝ) < (((1 : ℝ) / 2) ^ ((1 : ℝ) / 2.4)) ^ (2.4 : ℝ) :=
    Real.rpow_lt_rpow (by norm_num) hgt (by norm_num)
  have h2 : (((1 : ℝ) / 2) ^ ((1 : ℝ) / 2.4)) ^ (2.4 : ℝ) = (1 : ℝ) / 2 := by
    rw [← Real.rpow_mul (by norm_num : (0 : ℝ) ≤ 1 / 2)]
    norm_num
  have h3 : ((0.9 : ℝ)) ^ (3 : ℝ) ≤ ((0.9 : ℝ)) ^ (2.4 : ℝ) :=
    Real.rpow_le_rpow_of_exponent_ge (by norm_num) (by norm_num) (by norm_num)
  have h4 : ((0.9 : ℝ)) ^ (3 : ℝ) = 0.729 := by
    rw [show (3 : ℝ) = ((3 : ℕ) : ℝ) by norm_num, Real.rpow_natCast]
    norm_num
  rw [h2] at h1
  rw [h4] at h3
  linarith

/-- C5: at input 0.5 the source linear_to_srgb does not match the standard
sRGB transfer function: the source subtracts 0.05 after the power term where
the standard curve subtracts 0.055, so the two outputs differ by exactly
0.005. -/
theorem linear_to_srgb_deviates :
    linear_to_srgb (1 / 2) - srgb_standard (1 / 2) = 0.005 ∧
    linear_to_srgb (1 / 2) ≠ srgb_standard (1 / 2) := by
  have hp9 : ((1 : ℝ) / 2) ^ ((1 : ℝ) / 2.4) ≤ 0.9 := by
    by_contra hgt
    push_neg at hgt
    exact rpow_half_le hgt
  have hclip : clip ((1 : ℝ) / 2) = 1 / 2 := by
    rw [clip]
    norm_num
  have hcode : linear_to_srgb (1 / 2) = 1.055 * ((1 : ℝ) / 2) ^ ((1 : ℝ) / 2.4) - 0.05 := by
    simp only [linear_to_srgb, hclip]
    rw [if_neg (by norm_num : ¬((1 : ℝ) / 2 ≤ 0.0031308)),
      if_neg (by nlinarith : ¬((1 : ℝ) < 1.055 * ((1 : ℝ) / 2) ^ ((1 : ℝ) / 2.4) - 0.05))]
  have hspec : srgb_standard (1 / 2) =
      1.055 * ((1 : ℝ) / 2) ^ ((1 : ℝ) / 2.4) - 0.055 := by
    simp only [srgb_standard]
    rw [show max 0 (min 1 ((1 : ℝ) / 2)) = (1 / 2 : ℝ) by norm_num]
    rw [if_neg (by norm_num : ¬((1 : ℝ) / 2 ≤ 0.0031308))]
    rw [min_eq_left (by nlinarith : 1.055 * ((1 : ℝ) / 2) ^ ((1 : ℝ) / 2.4) - 0.055 ≤ 1)]
  refine ⟨by rw [hcode, hspec]; ring, ?_⟩
  rw [hcode, hspec]
  intro he
  have hz : (0.005 : ℝ) = 0 := by linarith
  norm_num at hz

/-! ## C4: shadow test -/

theorem intersectsLoop_iff (pal : Palette) (chunk : TileKey) (start dir : V3) :
    ∀ (n i : ℕ),
      (intersectsLoop pal chunk start dir (strideOf dir) (max_height pal chunk) n
        (((i : ℝ) + 1) * strideOf dir) = true) ↔
      ∃ k, k < n ∧ hitsStrictAt pal chunk start dir (i + k) ∧
        (∀ j, j ≤ k → ¬ escapesAt pal chunk start dir (i + j)) ∧
        (∀ j, j < k → ¬ hitsStrictAt pal chunk start dir (i + j)) := by
  intro n
  induction n with
  | zero =>
    intro i
    simp [intersectsLoop]
  | succ m ih =>
    intro i
    have hstep : ((i : ℝ) + 1) * strideOf dir + strideOf dir =
        ((i : ℝ) + 2) * strideOf dir := by ring
    simp only [intersectsLoop, hstep]
    have hescape_eq : escapesAt pal chunk start dir i ↔
        max_height pal chunk < (rayAt start dir (((i : ℝ) + 2) * strideOf dir)).z := by
      simp [escapesAt, marchPoint]
    have hhit_eq : hitsStrictAt pal chunk start dir i ↔
        (rayAt start dir (((i : ℝ) + 2) * strideOf dir)).z <
          height_at_pos pal chunk ((rayAt start dir (((i : ℝ) + 2) * strideOf dir)).x,
            (rayAt start dir (((i : ℝ) + 2) * strideOf dir)).y) := by
      simp [hitsStrictAt, marchPoint]
    by_cases hesc : max_height pal chunk <
        (rayAt start dir (((i : ℝ) + 2) * strideOf dir)).z
    · rw [if_pos hesc]
      constructor
      · intro h
        exact absurd h (by simp)
      · rintro ⟨k, _, _, hne, _⟩
        have h0 := hne 0 (Nat.zero_le k)
        rw [Nat.add_zero] at h0
        exact absurd (hescape_eq.mpr hesc) h0
    · rw [if_neg hesc]
      by_cases hhit : (rayAt start dir (((i : ℝ) + 2) * strideOf dir)).z <
          height_at_pos pal chunk ((rayAt start dir (((i : ℝ) + 2) * strideOf dir)).x,
            (rayAt start dir (((i : ℝ) + 2) * strideOf dir)).y)
      · rw [if_pos hhit]
        constructor
        · intro _
          refine ⟨0, Nat.succ_pos m, ?_, ?_, ?_⟩
          · rw [Nat.add_zero]
            exact hhit_eq.mpr hhit
          · intro j hj
            interval_cases j
            rw [Nat.add_zero]
            exact fun he => hesc (hescape_eq.mp he)
          · intro j hj
            exact absurd hj (Nat.not_lt_zero j)
        · intro _
          rfl
      · rw [if_neg hhit]
        have hcast : ((i : ℝ) + 2) * strideOf dir =
            (((i + 1 : ℕ) : ℝ) + 1) * strideOf dir := by
          push_cast
          ring
        rw [hcast, ih (i + 1)]
        constructor
        · rintro ⟨k, hk, hh, hne, hnh⟩
          refine ⟨k + 1, Nat.succ_lt_succ hk, ?_, ?_, ?_⟩
          · rw [show i + (k + 1) = i + 1 + k by omega]
            exact hh
          · intro j hj
            cases j with
            | zero =>
              rw [Nat.add_zero]
              exact fun he => hesc (hescape_eq.mp he)
            | succ j2 =>
              rw [show i + (j2 + 1) = i + 1 + j2 by omega]
              exact hne j2 (Nat.lt_succ_iff.mp (Nat.lt_of_lt_of_le (Nat.lt_succ_self j2) hj))
          · intro j hj
            cases j with
            | zero =>
              rw [Nat.add_zero]
              exact fun hh2 => hhit (hhit_eq.mp hh2)
            | succ j2 =>
              rw [show i + (j2 + 1) = i + 1 + j2 by omega]
              exact hnh j2 (by omega)
        · rintro ⟨k, hk, hh, hne, hnh⟩
          cases k with
          | zero =>
            rw [Nat.add_zero] at hh
            exact absurd (hhit_eq.mp hh) hhit
          | succ k2 =>
            refine ⟨k2, by omega, ?_, ?_, ?_⟩
            · rw [show i + 1 + k2 = i + (k2 + 1) by omega]
              exact hh
            · intro j hj
              rw [show i + 1 + j = i + (j + 1) by omega]
              exact hne (j + 1) (by omega)
            · intro j hj
              rw [show i + 1 + j = i + (j + 1) by omega]
              exact hnh (j + 1) (by omega)

/-- C4 (amended): the shadow test returns occluded exactly when the ray
points non-upward, or some iteration of the GRID - 2 step march finds the
height field strictly above the ray point, no earlier or simultaneous
iteration having escaped above the maximal neighborhood height and no
earlier iteration having hit. -/
theorem intersects_iff (pal : Palette) (chunk : TileKey) (start dir : V3) :
    intersects pal chunk start dir = true ↔
      (dir.z ≤ 0 ∨
        ∃ k, k < GRID - 2 ∧ hitsStrictAt pal chunk start dir k ∧
          (∀ j, j ≤ k → ¬ escapesAt pal chunk start dir j) ∧
          (∀ j, j < k → ¬ hitsStrictAt pal chunk start dir j)) := by
  rw [intersects]
  by_cases hdz : dir.z ≤ 0
  · rw [if_pos hdz]
    simp [hdz]
  · rw [if_neg hdz]
    nth_rewrite 2 [show strideOf dir = (((0 : ℕ) : ℝ) + 1) * strideOf dir by
      push_cast; ring]
    rw [intersectsLoop_iff pal chunk start dir (GRID - 2) 0]
    simp [hdz]

theorem cos_one_gt_half : (1 / 2 : ℝ) < Real.cos 1 := by
  have h1 : Real.cos (Real.pi / 3) < Real.cos 1 :=
    Real.cos_lt_cos_of_nonneg_of_le_pi (by norm_num)
      (by linarith [Real.pi_pos]) (by linarith [Real.pi_gt_three])
  rwa [Real.cos_pi_div_three] at h1

theorem strideOf_dirUp_pos : 0 < strideOf dirUp := by
  rw [strideOf, show dirUp.z = 1 from rfl]
  exact div_pos (by norm_num)
    (mul_pos Real.cos_one_pos (by norm_num [GRID]))

theorem strideOf_dirUp_le : strideOf dirUp ≤ 1 / 4 := by
  have hc := cos_one_gt_half
  rw [strideOf, show dirUp.z = 1 from rfl]
  rw [div_le_iff₀ (mul_pos Real.cos_one_pos (by norm_num [GRID] : (0 : ℝ) < (GRID : ℝ)))]
  have hg : ((GRID : ℕ) : ℝ) = 64 := by norm_num [GRID]
  rw [hg]
  nlinarith

theorem max_height_pal3 : max_height pal3 chunkAll3 = 1 / 2 := by
  norm_num [max_height, blocksList, chunkAll3, pal3, Surface.hm_maxR, hmScaleR,
    hmMaxConstR, max_def]

theorem ray_touch_x (t : ℝ) : (rayAt startTouch dirUp t).x = 3 / 2 := by
  simp [rayAt, startTouch, dirUp]

theorem ray_touch_y (t : ℝ) : (rayAt startTouch dirUp t).y = 3 / 2 := by
  simp [rayAt, startTouch, dirUp]

theorem ray_touch_z (t : ℝ) :
    (rayAt startTouch dirUp t).z = 1 / 2 - 2 * strideOf dirUp + t := by
  simp [rayAt, startTouch, dirUp, zTouch]

theorem height_touch (t : ℝ) :
    height_at_pos pal3 chunkAll3
      ((rayAt startTouch dirUp t).x, (rayAt startTouch dirUp t).y) = 1 / 2 := by
  rw [ray_touch_x, ray_touch_y]
  have hfloor : ⌊(3 / 2 : ℝ)⌋ = 1 := Int.floor_eq_iff.mpr (by norm_num)
  norm_num [height_at_pos, pos_to_tile, hfloor, chunkAll3, blockAt, pal3,
    Surface.height_at_uvR, Surface.height_atR, hmScaleR, hmMaxConstR]

/-- C4 counterexample: a valid straight-up ray whose first marched point has
height exactly equal to the height field value under it.  The source shadow
test (strict comparison) reports unoccluded, while the claim — occluded as
soon as the height field meets or exceeds the marched point — reports
occluded. -/
theorem intersects_touch_counterexample :
    intersects pal3 chunkAll3 startTouch dirUp = false ∧
    claimOccluded pal3 chunkAll3 startTouch dirUp ∧
    0 ≤ startTouch.z ∧ startTouch.z ≤ 1 ∧
    startTouch.x = 3 / 2 ∧ startTouch.y = 3 / 2 ∧
    dirUp.x ^ 2 + dirUp.y ^ 2 + dirUp.z ^ 2 = 1 := by
  have hspos := strideOf_dirUp_pos
  have hsle := strideOf_dirUp_le
  have hz1 : (rayAt startTouch dirUp (strideOf dirUp + strideOf dirUp)).z = 1 / 2 := by
    rw [ray_touch_z]
    ring
  have hz2 : (rayAt startTouch dirUp
      (strideOf dirUp + strideOf dirUp + strideOf dirUp)).z =
      1 / 2 + strideOf dirUp := by
    rw [ray_touch_z]
    ring
  refine ⟨?_, ?_, ?_, ?_, rfl, rfl, by norm_num [dirUp]⟩
  · -- the source returns unoccluded
    rw [intersects, if_neg (by norm_num [dirUp] : ¬(dirUp.z ≤ 0))]
    rw [show GRID - 2 = 61 + 1 from rfl]
    rw [intersectsLoop]
    rw [max_height_pal3, hz1, height_touch]
    rw [if_neg (lt_irrefl (1 / 2 : ℝ)), if_neg (lt_irrefl (1 / 2 : ℝ))]
    rw [show (61 : ℕ) = 60 + 1 from rfl]
    rw [intersectsLoop]
    rw [hz2]
    rw [if_pos (by linarith : (1 / 2 : ℝ) < 1 / 2 + strideOf dirUp)]
  · -- the claim as stated reports occluded at the first marched point
    refine Or.inr ⟨0, by norm_num [GRID], ?_, ?_,
      fun j hj => absurd hj (Nat.not_lt_zero j)⟩
    · rw [hitsGeAt, marchPoint, height_touch]
      rw [show (((0 : ℕ) : ℝ) + 2) * strideOf dirUp =
        strideOf dirUp + strideOf dirUp by push_cast; ring, hz1]
    · intro j hj
      interval_cases j
      rw [escapesAt, marchPoint, max_height_pal3]
      rw [show (((0 : ℕ) : ℝ) + 2) * strideOf dirUp =
        strideOf dirUp + strideOf dirUp by push_cast; ring, hz1]
      exact lt_irrefl (1 / 2 : ℝ)
  · rw [show startTouch.z = zTouch from rfl, zTouch]
    linarith
  · rw [show startTouch.z = zTouch from rfl, zTouch]
    linarith
